import Mathlib

/-!
# Verification of the link-app data-access layer

Shallow embedding of the link collection management logic and account
utilities of `src/app/layout.js`, together with theorems settling the
spec's claims about them.

JavaScript values that matter to the embedded functions (object fields,
`undefined`, metadata blobs) are modelled by the inductive `JSVal`; a JS
object is an association list of string keys to values, in insertion
order, as JS preserves it. Firestore state for a single user document is
`Option (List Link)`: `none` is a missing user document, `some links` a
document whose `links` field holds `links` (a document without a `links`
field behaves as `some []`, matching `userData.links || []`). Fallible
operations return `Except String`, mirroring `throw new Error(...)`;
functions whose callers observe the performed reads/writes also return a
`List FsOp` trace.
-/

/-- A JavaScript value, as far as the embedded code inspects one:
`undefined`, `null`, booleans, numbers, strings and objects
(ordered association lists of fields). -/
inductive JSVal where
  | undef : JSVal
  | null : JSVal
  | bool : Bool → JSVal
  | num : Int → JSVal
  | str : String → JSVal
  | obj : List (String × JSVal) → JSVal
deriving Repr

/-- `true` exactly on the JS value `undefined`. -/
def JSVal.isUndef : JSVal → Bool
  | .undef => true
  | _ => false

mutual

/-- Whether a JS value contains `undefined` anywhere, at any nesting
depth (the value itself, or inside an object field, recursively). -/
def JSVal.containsUndef : JSVal → Bool
  | .undef => true
  | .obj fields => JSVal.fieldsContainUndef fields
  | _ => false

/-- Whether any field value in an object field list contains `undefined`
at any depth. -/
def JSVal.fieldsContainUndef : List (String × JSVal) → Bool
  | [] => false
  | (_, v) :: rest => v.containsUndef || JSVal.fieldsContainUndef rest

end

mutual

/-- Deep value equality of JS values, as Firestore compares array
elements for `arrayUnion`. -/
def JSVal.beq : JSVal → JSVal → Bool
  | .undef, .undef => true
  | .null, .null => true
  | .bool a, .bool b => a == b
  | .num a, .num b => a == b
  | .str a, .str b => a == b
  | .obj a, .obj b => JSVal.fieldsBeq a b
  | _, _ => false

/-- Deep value equality of JS object field lists. -/
def JSVal.fieldsBeq : List (String × JSVal) → List (String × JSVal) → Bool
  | [], [] => true
  | (k1, v1) :: r1, (k2, v2) :: r2 =>
    k1 == k2 && JSVal.beq v1 v2 && JSVal.fieldsBeq r1 r2
  | _, _ => false

end

/-- Field lookup on a JS object (association list), first match wins,
as JS property access on objects with unique keys. -/
def getKey : List (String × JSVal) → String → Option JSVal
  | [], _ => none
  | (k, v) :: rest, key => if k = key then some v else getKey rest key

/-- The JS spread-update `\x7b...o, [key]: value\x7d` on an object with
unique keys: an existing key keeps its position and gets the new value,
a fresh key is appended at the end. -/
def setKey : List (String × JSVal) → String → JSVal → List (String × JSVal)
  | [], key, value => [(key, value)]
  | (k, v) :: rest, key, value =>
    if k = key then (k, value) :: rest else (k, v) :: setKey rest key value

/-- The `urlMetaData` argument of `addLinkToFirestore`: a `mediaType`
value and a `metadata` object. -/
structure UrlMetaData where
  mediaType : JSVal
  metadata : List (String × JSVal)
deriving Repr

/-- Deep value equality of `urlMetaData` records. -/
def UrlMetaData.beq (a b : UrlMetaData) : Bool :=
  JSVal.beq a.mediaType b.mediaType && JSVal.fieldsBeq a.metadata b.metadata

/-- Lines 231-237 of `layout.js`: build `validatedUrlMetaData` by copying
`mediaType` as-is and copying each `metadata` key whose value is not
`undefined` (the `for...in` loop with the `!== undefined` guard). -/
def validateUrlMetaData (u : UrlMetaData) : UrlMetaData :=
  { mediaType := u.mediaType
    metadata := u.metadata.filter (fun kv => !kv.2.isUndef) }

/-- A link record as `addLinkToFirestore` creates it (lines 239-247). -/
structure Link where
  id : Nat
  title : String
  link : String
  active : Bool
  metadata : UrlMetaData
  layout : String
  linkType : String
deriving Repr

/-- Deep value equality of link records, as Firestore's `arrayUnion`
compares elements. -/
def Link.beq (a b : Link) : Bool :=
  a.id == b.id && a.title == b.title && a.link == b.link && a.active == b.active
    && UrlMetaData.beq a.metadata b.metadata && a.layout == b.layout
    && a.linkType == b.linkType

/-- A Firestore operation on the user document, for observing whether a
call touched the document at all. -/
inductive FsOp where
  | read : FsOp
  | write : FsOp
deriving Repr, DecidableEq

/-- Firestore's `arrayUnion` on the `links` array: appends the element
unless an element equal to it (deep value equality) is already present. -/
def arrayUnion (links : List Link) (newLink : Link) : List Link :=
  if links.any (fun l => Link.beq l newLink) then links else links ++ [newLink]

/-- `addLinkToFirestore` (lines 214-266): validate that `title`, `link`,
`userId` and `urlMetaData` are all truthy, else throw before touching the
document; read the user document; `currentLinks` is its `links` array or
`[]`; `newId = currentLinks.length + 1`; strip top-level `undefined`
metadata values; build the new link with `active = false`,
`layout = 'classic'`, `linkType = 'external'`; write `[newLink]` via
`setDoc` when `currentLinks` is empty, else `arrayUnion(newLink)` via
`updateDoc`; return `[...currentLinks, newLink]`.
The result is `(new store, operation trace, returned value or error)`. -/
def addLinkToFirestore (store : Option (List Link)) (title lnk userId : String)
    (urlMetaData : Option UrlMetaData) :
    Option (List Link) × List FsOp × Except String (List Link) :=
  match urlMetaData with
  | none => (store, [], Except.error "Missing required fields")
  | some md =>
    if title = "" ∨ lnk = "" ∨ userId = "" then
      (store, [], Except.error "Missing required fields")
    else
      let currentLinks := store.getD []
      let newId := currentLinks.length + 1
      let newLink : Link :=
        { id := newId, title := title, link := lnk, active := false
          metadata := validateUrlMetaData md, layout := "classic"
          linkType := "external" }
      if currentLinks.length = 0 then
        (some [newLink], [FsOp.read, FsOp.write], Except.ok [newLink])
      else
        (some (arrayUnion currentLinks newLink), [FsOp.read, FsOp.write],
          Except.ok (currentLinks ++ [newLink]))

/-- `deleteLinkById` (lines 408-430): throw when the user document does
not exist; otherwise filter out links whose `id` equals `linkId`, write
the filtered array back, and return it. -/
def deleteLinkById (store : Option (List Link)) (linkId : Nat) :
    Except String (Option (List Link) × List Link) :=
  match store with
  | none => Except.error "User document does not exist"
  | some links =>
    let updatedLinks := links.filter (fun l => l.id ≠ linkId)
    Except.ok (some updatedLinks, updatedLinks)

/-- The `links.map` of `updateLinkActiveState` (lines 345-350): replace
`active` on the link whose `id` matches, keep every other link as-is. -/
def linksSetActive (links : List Link) (linkId : Nat) (active : Bool) : List Link :=
  links.map (fun l => if l.id = linkId then { l with active := active } else l)

/-- `updateLinkActiveState` (lines 336-363): throw when the user document
does not exist; otherwise map `linksSetActive` over the `links` array,
write it back, and return it. -/
def updateLinkActiveState (store : Option (List Link)) (linkId : Nat) (active : Bool) :
    Except String (Option (List Link) × List Link) :=
  match store with
  | none => Except.error "User document does not exist"
  | some links =>
    let updatedLinks := linksSetActive links linkId active
    Except.ok (some updatedLinks, updatedLinks)

/-- JS strict equality `link.id === linkId` between a link object's `id`
field and the number `linkId`: true exactly when the field is present and
is that number. -/
def idMatches (l : List (String × JSVal)) (linkId : Int) : Bool :=
  match getKey l "id" with
  | some (JSVal.num n) => n == linkId
  | _ => false

/-- The `links.map` of `updateLinkData` (lines 382-387), over links as raw
JS objects since the field name is arbitrary: on the link whose `id` field
equals `linkId`, set `field` to `value` by spread-update; keep every other
link as-is. -/
def linksSetField (links : List (List (String × JSVal))) (linkId : Int)
    (field : String) (value : JSVal) : List (List (String × JSVal)) :=
  links.map (fun l => if idMatches l linkId then setKey l field value else l)

/-- `updateLinkData` (lines 373-400): throw when the user document does
not exist; otherwise map `linksSetField` over the `links` array, write it
back, and return it. Links are raw JS objects here because the updated
field name is an arbitrary string. -/
def updateLinkData (store : Option (List (List (String × JSVal)))) (linkId : Int)
    (field : String) (value : JSVal) :
    Except String (Option (List (List (String × JSVal))) × List (List (String × JSVal))) :=
  match store with
  | none => Except.error "User document does not exist"
  | some links =>
    let updatedLinks := linksSetField links linkId field value
    Except.ok (some updatedLinks, updatedLinks)

/-- A subscription record in `customers/uid/subscriptions`: its `status`
string and its `cancel_at_period_end` flag (`false` models both an
explicit `false` and the field being absent, which are equally falsy in
the JS truthiness test the code performs). -/
structure Subscription where
  status : String
  cancel_at_period_end : Bool
deriving Repr

/-- `checkSubscriptionStatus` (lines 159-184): query the subscription
records whose `status` is in `['trialing', 'active', 'canceled']`; if the
snapshot is empty return `false`; otherwise fold over the snapshot
setting the flag on `status === 'canceled' && cancel_at_period_end` and
on `status ∈ ['trialing', 'active']`, and return the flag. -/
def checkSubscriptionStatus (subs : List Subscription) : Bool :=
  let snapshot := subs.filter (fun s =>
    s.status == "trialing" || s.status == "active" || s.status == "canceled")
  if snapshot.isEmpty then
    false
  else
    snapshot.foldl
      (fun hasActiveSubscription s =>
        let h1 :=
          if s.status == "canceled" && s.cancel_at_period_end then true
          else hasActiveSubscription
        if s.status == "trialing" || s.status == "active" then true else h1)
      false

/-- A stored user record, as far as username queries inspect it: the
`username` field plus the rest of the document as an opaque payload. -/
structure UserRecord where
  username : String
  payload : JSVal
deriving Repr

/-- `fetchUserDataByUsername` (lines 191-209): query users whose
`username` equals the input; if the snapshot is nonempty return the first
document's data, else return `null`; any query failure is caught and also
returns `null`. The `queryFails` flag models whether the backend query
throws. -/
def fetchUserDataByUsername (users : List UserRecord) (username : String)
    (queryFails : Bool) : Option UserRecord :=
  if queryFails then
    none
  else
    match users.filter (fun u => u.username == username) with
    | [] => none
    | d :: _ => some d

/-- `isUsernameTaken` (lines 125-135): query users whose `username`
equals the input and return whether the snapshot is nonempty; any query
failure is caught and returns `false`. The `queryFails` flag models
whether the backend query throws. -/
def isUsernameTaken (users : List UserRecord) (username : String)
    (queryFails : Bool) : Bool :=
  if queryFails then
    false
  else
    !(users.filter (fun u => u.username == username)).isEmpty

/-- A client-initiated operation on a user's link collection: an append
(`addLinkToFirestore` with its four arguments) or a delete-by-id
(`deleteLinkById`). -/
inductive LinkOp where
  | append : String → String → String → Option UrlMetaData → LinkOp
  | del : Nat → LinkOp
deriving Repr

/-- The effect of one operation on the stored user document: the store
component of `addLinkToFirestore`, or the store written by
`deleteLinkById` (a thrown error writes nothing and leaves the store
unchanged). -/
def applyOp (store : Option (List Link)) : LinkOp → Option (List Link)
  | .append title lnk userId md => (addLinkToFirestore store title lnk userId md).1
  | .del linkId =>
    match deleteLinkById store linkId with
    | Except.ok (store', _) => store'
    | Except.error _ => store

/-- The store reached from a fresh user (no document, hence an empty
link collection) by a sequence of operations. -/
def runOps (ops : List LinkOp) : Option (List Link) :=
  ops.foldl applyOp none

/-- Build append operations from a list of argument tuples. -/
def mkAppendOps (args : List (String × String × String × Option UrlMetaData)) :
    List LinkOp :=
  args.map (fun a => LinkOp.append a.1 a.2.1 a.2.2.1 a.2.2.2)

/-- Build delete operations from a list of link ids. -/
def mkDelOps (ids : List Nat) : List LinkOp :=
  ids.map LinkOp.del

/-- The spec's subscription predicate, stated from its words: a record
counts as active when its status is `trialing` or `active`, or when it is
`canceled` with `cancel_at_period_end` set. -/
def specSubscriptionActive (s : Subscription) : Bool :=
  s.status == "trialing" || s.status == "active"
    || (s.status == "canceled" && s.cancel_at_period_end)

/-- Invariant maintained by appends from a fresh store: link ids are
pairwise distinct and bounded by the collection's length. -/
def AppendInv (store : Option (List Link)) : Prop :=
  ∀ links, store = some links →
    (links.map Link.id).Nodup ∧ ∀ l ∈ links, l.id ≤ links.length

/-- Invariant maintained by deletes: link ids are pairwise distinct. -/
def NodupIds (store : Option (List Link)) : Prop :=
  ∀ links, store = some links → (links.map Link.id).Nodup

/-- A sample metadata argument for concrete instantiations. -/
def mdSample : UrlMetaData :=
  { mediaType := JSVal.str "image", metadata := [("ogTitle", JSVal.str "t")] }

/-- A metadata argument carrying an `undefined` nested one level below a
top-level `metadata` value. -/
def mdNested : UrlMetaData :=
  { mediaType := JSVal.str "image"
    metadata := [("og", JSVal.obj [("image", JSVal.undef)])] }

/-- A sample stored link for concrete instantiations. -/
def linkSample : Link :=
  { id := 1, title := "first", link := "https://a.example", active := true
    metadata := mdSample, layout := "classic", linkType := "external" }

/-- A sample stored link, as a raw JS object, for concrete
instantiations of `updateLinkData`. -/
def objSample : List (String × JSVal) :=
  [("id", JSVal.num 1), ("title", JSVal.str "first"), ("active", JSVal.bool true)]

/-- A sample stored user record for concrete instantiations. -/
def userSample : UserRecord :=
  { username := "alice", payload := JSVal.obj [("photoUrl", JSVal.str "p")] }

/-! ## Helper lemmas -/

theorem linksSetActive_idem (links : List Link) (linkId : Nat) (active : Bool) :
    linksSetActive (linksSetActive links linkId active) linkId active =
      linksSetActive links linkId active := by
  simp only [linksSetActive, List.map_map]
  apply List.map_congr_left
  intro l _
  by_cases h : l.id = linkId
  · simp [Function.comp, h]
  · simp [Function.comp, h]

theorem getKey_setKey_ne (l : List (String × JSVal)) (field k : String)
    (value : JSVal) (h : ¬ k = field) :
    getKey (setKey l field value) k = getKey l k := by
  induction l with
  | nil =>
    have hf : ¬ field = k := fun hf => h hf.symm
    simp [setKey, getKey, hf]
  | cons kv rest ih =>
    obtain ⟨k1, v1⟩ := kv
    by_cases h1 : k1 = field
    · subst h1
      have hk : ¬ k1 = k := fun hk => h hk.symm
      simp [setKey, getKey, hk]
    · by_cases h2 : k1 = k
      · simp [setKey, getKey, h1, h2, h]
      · simp [setKey, getKey, h1, h2, h, ih]

theorem foldl_subscription_flag (l : List Subscription) (a : Bool) :
    l.foldl
      (fun hasActiveSubscription s =>
        let h1 :=
          if s.status == "canceled" && s.cancel_at_period_end then true
          else hasActiveSubscription
        if s.status == "trialing" || s.status == "active" then true else h1)
      a = (a || l.any specSubscriptionActive) := by
  induction l generalizing a with
  | nil => simp
  | cons s rest ih =>
    simp only [List.foldl_cons, List.any_cons, ih]
    cases h1 : (s.status == "canceled" && s.cancel_at_period_end) <;>
      cases h2 : (s.status == "trialing") <;>
        cases h3 : (s.status == "active") <;>
          cases a <;> simp [specSubscriptionActive, h1, h2, h3]

theorem any_filter_subscription (l : List Subscription) :
    ((l.filter (fun s =>
        s.status == "trialing" || s.status == "active" || s.status == "canceled")).any
      specSubscriptionActive) = l.any specSubscriptionActive := by
  induction l with
  | nil => rfl
  | cons s rest ih =>
    cases h2 : (s.status == "trialing") <;>
      cases h3 : (s.status == "active") <;>
        cases h4 : (s.status == "canceled") <;>
          simp [List.filter_cons, List.any_cons, specSubscriptionActive, h2, h3, h4, ih]

theorem Link.beq_id_eq (a b : Link) (h : Link.beq a b = true) : a.id = b.id := by
  simp only [Link.beq, Bool.and_eq_true] at h
  exact eq_of_beq h.1.1.1.1.1.1

theorem applyOp_append_inv (store : Option (List Link)) (t l u : String)
    (md : Option UrlMetaData) (h : AppendInv store) :
    AppendInv (applyOp store (LinkOp.append t l u md)) := by
  cases md with
  | none => exact h
  | some m =>
    simp only [applyOp, addLinkToFirestore]
    by_cases hv : (t = "" ∨ l = "" ∨ u = "")
    · rw [if_pos hv]
      exact h
    · rw [if_neg hv]
      by_cases h0 : (store.getD []).length = 0
      · rw [if_pos h0]
        intro links hl
        cases hl
        constructor
        · exact List.nodup_singleton _
        · intro lk hlk
          rw [List.mem_singleton] at hlk
          subst hlk
          simp [h0]
      · rw [if_neg h0]
        intro links hl
        cases hl
        obtain ⟨links0, hst⟩ : ∃ links0, store = some links0 := by
          cases store with
          | none => exact absurd rfl h0
          | some links0 => exact ⟨links0, rfl⟩
        have hcur : store.getD [] = links0 := by rw [hst]; rfl
        obtain ⟨hnd, hbd⟩ := h links0 hst
        have hany : (links0.any (fun lk => Link.beq lk
            { id := links0.length + 1, title := t, link := l, active := false
              metadata := validateUrlMetaData m, layout := "classic"
              linkType := "external" })) = false := by
          rw [List.any_eq_false]
          intro lk hlk hbeq
          have hid := Link.beq_id_eq _ _ hbeq
          have hle := hbd lk hlk
          simp only at hid
          omega
        rw [hcur]
        rw [arrayUnion, hany]
        simp only [Bool.false_eq_true, if_false]
        constructor
        · rw [List.map_append, List.nodup_append]
          refine ⟨hnd, List.nodup_singleton _, ?_⟩
          intro x hx
          rw [List.mem_map] at hx
          obtain ⟨lk, hlk, hxid⟩ := hx
          have := hbd lk hlk
          simp only [List.map_cons, List.map_nil, List.mem_singleton]
          omega
        · intro lk hlk
          rw [List.mem_append] at hlk
          rw [List.length_append]
          rcases hlk with hlk | hlk
          · have := hbd lk hlk
            simp only [List.length_cons, List.length_nil]
            omega
          · rw [List.mem_singleton] at hlk
            subst hlk
            simp

theorem applyOp_del_nodup (store : Option (List Link)) (linkId : Nat)
    (h : NodupIds store) : NodupIds (applyOp store (LinkOp.del linkId)) := by
  cases store with
  | none => exact h
  | some links =>
    intro links' hl'
    simp only [applyOp, deleteLinkById] at hl'
    cases hl'
    have hnd := h links rfl
    exact hnd.sublist (List.Sublist.map Link.id (List.filter_sublist links))

theorem foldl_appendOps_inv (args : List (String × String × String × Option UrlMetaData))
    (store : Option (List Link)) (h : AppendInv store) :
    AppendInv ((mkAppendOps args).foldl applyOp store) := by
  induction args generalizing store with
  | nil => exact h
  | cons a rest ih =>
    exact ih _ (applyOp_append_inv store a.1 a.2.1 a.2.2.1 a.2.2.2 h)

theorem foldl_delOps_nodup (ids : List Nat) (store : Option (List Link))
    (h : NodupIds store) : NodupIds ((mkDelOps ids).foldl applyOp store) := by
  induction ids generalizing store with
  | nil => exact h
  | cons i rest ih => exact ih _ (applyOp_del_nodup store i h)

/-! ## Claim theorems -/

/-- C1: for every append call (`addLinkToFirestore`) whose required
fields `title`, `link`, `userId` and `urlMetaData` are all present
(truthy), the returned collection equals the previous collection with
exactly one new entry appended at the end — so its length increases by
exactly one — and the new entry's `id` equals previous-count + 1, with
`active = false`, `layout = 'classic'` and `linkType = 'external'`. -/
theorem addLinkToFirestore_valid_appends (store : Option (List Link))
    (title lnk userId : String) (md : UrlMetaData)
    (ht : ¬ title = "") (hl : ¬ lnk = "") (hu : ¬ userId = "") :
    (addLinkToFirestore store title lnk userId (some md)).2.2 =
      Except.ok (store.getD [] ++
        [{ id := (store.getD []).length + 1, title := title, link := lnk
           active := false, metadata := validateUrlMetaData md
           layout := "classic", linkType := "external" }]) ∧
    ∀ ret, (addLinkToFirestore store title lnk userId (some md)).2.2 = Except.ok ret →
      ret.length = (store.getD []).length + 1 := by
  have hcond : ¬ (title = "" ∨ lnk = "" ∨ userId = "") := by
    intro hc
    rcases hc with hc | hc | hc
    · exact ht hc
    · exact hl hc
    · exact hu hc
  have hmain : (addLinkToFirestore store title lnk userId (some md)).2.2 =
      Except.ok (store.getD [] ++
        [{ id := (store.getD []).length + 1, title := title, link := lnk
           active := false, metadata := validateUrlMetaData md
           layout := "classic", linkType := "external" }]) := by
    simp only [addLinkToFirestore, if_neg hcond]
    by_cases h0 : (store.getD []).length = 0
    · rw [if_pos h0]
      have hnil : store.getD [] = [] := List.length_eq_zero.mp h0
      simp [hnil]
    · rw [if_neg h0]
  refine ⟨hmain, ?_⟩
  intro ret hret
  rw [hmain] at hret
  cases hret
  simp

/-- Witness for C1 at a concrete store and arguments. -/
theorem addLinkToFirestore_valid_appends_witness :
    (addLinkToFirestore (some [linkSample]) "second" "https://b.example" "uid"
        (some mdSample)).2.2 =
      Except.ok ([linkSample] ++
        [{ id := 2, title := "second", link := "https://b.example"
           active := false, metadata := validateUrlMetaData mdSample
           layout := "classic", linkType := "external" }]) :=
  (addLinkToFirestore_valid_appends (some [linkSample]) "second" "https://b.example"
    "uid" mdSample (by decide) (by decide) (by decide)).1

/-- C2 counterexample: the collection reached from an empty collection by
appending two links, deleting link 1, then appending a third link holds
two links that share id 2, because `addLinkToFirestore` computes the new
id as count + 1 and the count shrank after the delete. -/
theorem linkIds_not_unique_after_delete :
    ¬ ((((runOps [LinkOp.append "a" "https://a.example" "uid" (some mdSample),
          LinkOp.append "b" "https://b.example" "uid" (some mdSample),
          LinkOp.del 1,
          LinkOp.append "c" "https://c.example" "uid" (some mdSample)]).getD
        []).map Link.id).Nodup) := by
  decide

/-- C2 amended: link ids are unique within a user's link list for every
collection reachable from the empty collection by a sequence of append
(`addLinkToFirestore`) and delete-by-id (`deleteLinkById`) operations in
which no append comes after a delete; an append performed after a delete
can duplicate an id, since ids are assigned as count + 1. -/
theorem linkIds_unique_appends_then_deletes
    (args : List (String × String × String × Option UrlMetaData))
    (ids : List Nat) :
    (((runOps (mkAppendOps args ++ mkDelOps ids)).getD []).map Link.id).Nodup := by
  have h0 : AppendInv (none : Option (List Link)) := by
    intro l hl
    cases hl
  have h1 := foldl_appendOps_inv args none h0
  have h2 : NodupIds ((mkAppendOps args).foldl applyOp none) :=
    fun l hl => (h1 l hl).1
  have h3 := foldl_delOps_nodup ids _ h2
  rw [runOps, List.foldl_append]
  cases hfin : ((mkDelOps ids).foldl applyOp ((mkAppendOps args).foldl applyOp none)) with
  | none => simp
  | some links => simpa using h3 links hfin

/-- C3: for every append call (`addLinkToFirestore`) in which any of the
required fields `title`, `link`, `userId` or `urlMetaData` is missing
(falsy), the operation fails with the validation error, the stored link
collection is unchanged, and no read or write of the user document
occurs (the operation trace is empty). -/
theorem addLinkToFirestore_missing_field_rejected (store : Option (List Link))
    (title lnk userId : String) (urlMetaData : Option UrlMetaData)
    (h : title = "" ∨ lnk = "" ∨ userId = "" ∨ urlMetaData = none) :
    addLinkToFirestore store title lnk userId urlMetaData =
      (store, [], Except.error "Missing required fields") := by
  cases urlMetaData with
  | none => rfl
  | some md =>
    have hv : title = "" ∨ lnk = "" ∨ userId = "" := by
      rcases h with h | h | h | h
      · exact Or.inl h
      · exact Or.inr (Or.inl h)
      · exact Or.inr (Or.inr h)
      · cases h
    simp only [addLinkToFirestore, if_pos hv]

/-- Witness for C3 at a concrete store and a missing title. -/
theorem addLinkToFirestore_missing_field_rejected_witness :
    addLinkToFirestore (some [linkSample]) "" "https://b.example" "uid"
        (some mdSample) =
      (some [linkSample], [], Except.error "Missing required fields") :=
  addLinkToFirestore_missing_field_rejected (some [linkSample]) "" "https://b.example"
    "uid" (some mdSample) (Or.inl rfl)

/-- C4: subscription status derivation (`checkSubscriptionStatus`)
returns `true` exactly when some subscription record has status
`trialing` or `active`, or status `canceled` with `cancel_at_period_end`
true; in particular it is `false` on no records, and the four concrete
examples from the spec evaluate as stated. -/
theorem checkSubscriptionStatus_matches_spec (subs : List Subscription) :
    checkSubscriptionStatus subs = subs.any specSubscriptionActive ∧
    checkSubscriptionStatus [⟨"active", false⟩] = true ∧
    checkSubscriptionStatus [⟨"canceled", false⟩] = false ∧
    checkSubscriptionStatus ([] : List Subscription) = false ∧
    checkSubscriptionStatus [⟨"canceled", true⟩] = true := by
  refine ⟨?_, rfl, rfl, rfl, rfl⟩
  simp only [checkSubscriptionStatus]
  by_cases he : (subs.filter (fun s =>
      s.status == "trialing" || s.status == "active" || s.status == "canceled")).isEmpty
  · rw [if_pos he]
    rw [List.isEmpty_iff] at he
    rw [← any_filter_subscription, he]
    rfl
  · rw [if_neg he, foldl_subscription_flag, Bool.false_or, any_filter_subscription]

/-- C5: public profile resolution (`fetchUserDataByUsername`) returns
`none` both when the query mechanism fails and when no stored user has
the given username, so error and absence are not distinguished; when the
query succeeds it returns the first matching user record. -/
theorem fetchUserDataByUsername_not_found (users : List UserRecord)
    (username : String) :
    fetchUserDataByUsername users username true = none ∧
    ((∀ u ∈ users, ¬ u.username = username) →
      fetchUserDataByUsername users username false = none) ∧
    fetchUserDataByUsername users username false =
      users.find? (fun u => u.username == username) := by
  have hfind : fetchUserDataByUsername users username false =
      users.find? (fun u => u.username == username) := by
    induction users with
    | nil => rfl
    | cons u rest ih =>
      simp only [fetchUserDataByUsername, if_neg (Bool.false_ne_true)] at ih ⊢
      cases hb : (u.username == username) with
      | true => simp [List.filter_cons, List.find?_cons, hb]
      | false => simp [List.filter_cons, List.find?_cons, hb, ih]
  refine ⟨rfl, ?_, hfind⟩
  intro h
  rw [hfind, List.find?_eq_none]
  intro u hu
  simpa using h u hu

/-- Witness for C5 at a concrete store with no matching username. -/
theorem fetchUserDataByUsername_not_found_witness :
    fetchUserDataByUsername [userSample] "bob" false = none :=
  (fetchUserDataByUsername_not_found [userSample] "bob").2.1 (by decide)

/-- C6: delete-by-id (`deleteLinkById`) is an idempotent no-op on absent
ids: when no link in the collection has the target id, the operation
writes back and returns the collection unchanged; and re-running the
delete on its own result returns the same store and collection, so
deleting twice equals deleting once. -/
theorem deleteLinkById_absent_id_noop (links : List Link) (linkId : Nat) :
    ((∀ l ∈ links, ¬ l.id = linkId) →
      deleteLinkById (some links) linkId = Except.ok (some links, links)) ∧
    (∀ store' ret, deleteLinkById (some links) linkId = Except.ok (store', ret) →
      deleteLinkById store' linkId = Except.ok (store', ret)) := by
  constructor
  · intro h
    have hf : links.filter (fun l => l.id ≠ linkId) = links := by
      rw [List.filter_eq_self]
      intro l hl
      simpa using h l hl
    simp only [deleteLinkById, hf]
  · intro store' ret h
    simp only [deleteLinkById, Except.ok.injEq, Prod.mk.injEq] at h
    obtain ⟨h1, h2⟩ := h
    subst h1
    subst h2
    have hf : (links.filter (fun l => l.id ≠ linkId)).filter (fun l => l.id ≠ linkId) =
        links.filter (fun l => l.id ≠ linkId) := by
      rw [List.filter_eq_self]
      intro l hl
      exact (List.mem_filter.mp hl).2
    simp only [deleteLinkById, hf]

/-- Witness for C6: deleting absent id 2 leaves the collection unchanged,
also on the result of a first identical delete. -/
theorem deleteLinkById_absent_id_noop_witness :
    deleteLinkById (some [linkSample]) 2 = Except.ok (some [linkSample], [linkSample]) :=
  (deleteLinkById_absent_id_noop [linkSample] 2).2 (some [linkSample]) [linkSample]
    ((deleteLinkById_absent_id_noop [linkSample] 2).1 (by decide))

/-- C7 counterexample: an append whose metadata holds an `undefined` one
level below a top-level value persists that `undefined` with the new
link — the strip loop only inspects top-level values, so the claim that
undefined values are stripped at any nesting depth is false. -/
theorem addLink_persists_nested_undef :
    (addLinkToFirestore none "t" "https://a.example" "uid" (some mdNested)).1 =
      some [{ id := 1, title := "t", link := "https://a.example", active := false
              metadata := validateUrlMetaData mdNested, layout := "classic"
              linkType := "external" }] ∧
    JSVal.fieldsContainUndef (validateUrlMetaData mdNested).metadata = true :=
  ⟨rfl, rfl⟩

/-- C7 amended: for every append call, every top-level key of the
supplied metadata whose value is `undefined` is stripped before the link
is written, so the persisted metadata object has no `undefined` among its
top-level values; `undefined` nested deeper is not removed. -/
theorem validateUrlMetaData_strips_top_level (u : UrlMetaData) :
    ((validateUrlMetaData u).metadata.all (fun kv => !kv.2.isUndef)) = true := by
  simp only [validateUrlMetaData, List.all_eq_true]
  intro kv hkv
  exact (List.mem_filter.mp hkv).2

/-- C8: set-active-by-id (`updateLinkActiveState`) and set-field-by-id
(`updateLinkData`) are frame-preserving: the written-back collection is
exactly the mapped collection, its length and order are preserved
(pointwise `Forall₂` against the original), every link whose id differs
from the target is unchanged, and on the target link every field other
than the one being set is unchanged. -/
theorem updateLink_frame_preserving (links : List Link)
    (objs : List (List (String × JSVal))) (linkId : Nat) (active : Bool)
    (oid : Int) (field : String) (value : JSVal) :
    updateLinkActiveState (some links) linkId active =
      Except.ok (some (linksSetActive links linkId active),
        linksSetActive links linkId active) ∧
    (linksSetActive links linkId active).length = links.length ∧
    List.Forall₂ (fun l l' : Link =>
        (¬ l.id = linkId → l' = l) ∧ l'.id = l.id ∧ l'.title = l.title ∧
        l'.link = l.link ∧ l'.metadata = l.metadata ∧ l'.layout = l.layout ∧
        l'.linkType = l.linkType)
      links (linksSetActive links linkId active) ∧
    updateLinkData (some objs) oid field value =
      Except.ok (some (linksSetField objs oid field value),
        linksSetField objs oid field value) ∧
    (linksSetField objs oid field value).length = objs.length ∧
    List.Forall₂ (fun o o' =>
        (idMatches o oid = false → o' = o) ∧
        ∀ k, ¬ k = field → getKey o' k = getKey o k)
      objs (linksSetField objs oid field value) := by
  refine ⟨rfl, by simp [linksSetActive], ?_, rfl, by simp [linksSetField], ?_⟩
  · rw [linksSetActive, List.forall₂_map_right_iff]
    rw [List.forall₂_same]
    intro l _
    by_cases h : l.id = linkId
    · rw [if_pos h]
      exact ⟨fun hc => absurd h hc, rfl, rfl, rfl, rfl, rfl, rfl⟩
    · rw [if_neg h]
      exact ⟨fun _ => rfl, rfl, rfl, rfl, rfl, rfl, rfl⟩
  · rw [linksSetField, List.forall₂_map_right_iff]
    rw [List.forall₂_same]
    intro o _
    by_cases h : idMatches o oid = true
    · rw [if_pos h]
      refine ⟨fun hc => absurd h (by simp [hc]), ?_⟩
      intro k hk
      exact getKey_setKey_ne o field k value hk
    · rw [if_neg h]
      exact ⟨fun _ => rfl, fun k _ => rfl⟩

/-- Witness for C8: on a one-link collection whose link does not match
the target ids, both operations leave the link unchanged; in particular
the non-matching JS object keeps every key other than the written one. -/
theorem updateLink_frame_preserving_witness :
    linksSetActive [linkSample] 2 false = [linkSample] ∧
    getKey (linksSetField [objSample] 5 "title" (JSVal.str "x")).headI "id" =
      getKey objSample "id" := by
  have h := updateLink_frame_preserving [linkSample] [objSample] 2 false 5 "title"
    (JSVal.str "x")
  obtain ⟨-, -, hact, -, -, hobj⟩ := h
  constructor
  · cases hact with
    | cons hrel htail =>
      cases htail
      exact congrArg (fun x => [x]) (hrel.1 (by decide))
  · cases hobj with
    | cons hrel htail =>
      cases htail
      exact hrel.2 "id" (by decide)

/-- C9: setting a link's active state (`updateLinkActiveState`) is
idempotent: applying the operation again with the same id and value to
the store it produced returns the same store and the same collection. -/
theorem updateLinkActiveState_idempotent (store store' : Option (List Link))
    (linkId : Nat) (active : Bool) (ret : List Link)
    (h : updateLinkActiveState store linkId active = Except.ok (store', ret)) :
    updateLinkActiveState store' linkId active = Except.ok (store', ret) := by
  cases store with
  | none => exact absurd h (by simp [updateLinkActiveState])
  | some links =>
    simp only [updateLinkActiveState, Except.ok.injEq, Prod.mk.injEq] at h
    obtain ⟨h1, h2⟩ := h
    subst h1
    subst h2
    simp only [updateLinkActiveState, linksSetActive_idem]

/-- Witness for C9 at a concrete one-link collection. -/
theorem updateLinkActiveState_idempotent_witness :
    updateLinkActiveState (some (linksSetActive [linkSample] 1 false)) 1 false =
      Except.ok (some (linksSetActive [linkSample] 1 false),
        linksSetActive [linkSample] 1 false) :=
  updateLinkActiveState_idempotent (some [linkSample]) _ 1 false _ rfl

/-- C10: the username availability check (`isUsernameTaken`) returns
`false` whenever the backend query fails, for every user store and every
username — including a username that is actually taken, which without the
failure would report `true` — so a backend failure is indistinguishable
from availability. -/
theorem isUsernameTaken_error_reports_available (users : List UserRecord)
    (username : String) :
    isUsernameTaken users username true = false ∧
    isUsernameTaken ({ username := username, payload := JSVal.null } :: users)
      username true = false ∧
    isUsernameTaken ({ username := username, payload := JSVal.null } :: users)
      username false = true := by
  refine ⟨rfl, rfl, ?_⟩
  simp [isUsernameTaken, List.filter_cons]
